import Mathlib

/-!
# Station: the game hub of `server.go`

A shallow embedding of the hub of `server.go` (`GameHub`, `Player`, the conductor,
`createPlayer`, `destroyPlayer`, `inStream`, `spinConnection`) and the properties of
its broadcast protocol.

Modelling conventions.

* A `*Player` is an address, a natural number indexing the list `heap` of all `Player`
  objects allocated so far; allocation appends, so an address is never reused.
* The Go map `Players map[*Player]bool` is the list of its keys.  A `range` over the map
  visits the keys in an order the language leaves open, so every loop over the registry
  takes the order of its visit as an argument (a permutation of the keys).
* A channel is the log of the values sent on it together with its closed flag.  A send
  on a closed channel and a close of a closed channel panic, as in Go.  Waiting for the
  receiver is not modelled: a send on an open channel completes.
* A panic that no one recovers ends the process; the outcome `panic` keeps the state
  at that moment.  `blocked` is a goroutine waiting for the mutex.
* `fmt.Printf`, `fmt.Println` and `log.Println` only write to the terminal and are left
  out, except for the type assertion evaluated as an argument of `fmt.Printf`.
-/

namespace Station

/-! ## Values and events -/

/-- Go `float64`, identified by its IEEE-754 bit pattern. The program stores and copies
such values and never computes with them. -/
structure Float64 where
  bits : Nat
deriving DecidableEq

/-- The constant `512` as a `float64`. -/
def Float64.c512 : Float64 := ⟨0x4080000000000000⟩

/-- A Go `interface{}` value: what `encoding/json` decodes into (`nil`, `bool`,
`float64`, `string`, `[]interface{}`, `map[string]interface{}`) and the `int` that the
conductor stores under `radius`. -/
inductive Value where
  | null
  | bool (b : Bool)
  | float (f : Float64)
  | int (i : Int)
  | str (s : String)
  | arr (xs : List Value)
  | obj (kvs : List (String × Value))

/-- A Go `map[string]interface{}`, as its list of fields. -/
abbrev Msg := List (String × Value)

/-- Go `m[key]`: the value stored under `key`, the `nil` interface when there is none. -/
def index (m : Msg) (key : String) : Value :=
  (m.lookup key).getD Value.null

/-- Go `v.(string)`: `none` stands for the run-time panic of a failed assertion. -/
def assertString : Value → Option String
  | .str s => some s
  | _ => none

/-- Go `v.(float64)`: `none` stands for the run-time panic of a failed assertion. -/
def assertFloat64 : Value → Option Float64
  | .float f => some f
  | _ => none

/-- Go `uid != v` for a `string` and an `interface{}`: they are equal only when the
dynamic type of `v` is `string` and the strings are equal. -/
def neq (uid : String) : Value → Bool
  | .str s => uid != s
  | _ => true

/-! ## Channels, players, the hub -/

/-- A channel: the values sent on it, oldest first, and whether it was closed. -/
structure Chan (α : Type) where
  sent : List α
  closed : Bool

/-- Go `make(chan T)`. -/
def Chan.make {α : Type} : Chan α := ⟨[], false⟩

/-- Player : stores player connection. The field `ghub` is left out: there is one hub. -/
structure Player where
  uid : String
  test : Chan (List Nat)
  push : Chan Msg
  conn : Nat
  radius : Int
  xPos : Float64
  yPos : Float64

/-- The zero `Player`, read through an address that was never allocated. -/
def Player.zero : Player :=
  { uid := "", test := Chan.make, push := Chan.make, conn := 0, radius := 0,
    xPos := ⟨0⟩, yPos := ⟨0⟩ }

/-- GameHub : stores all the players. Next to the fields of the Go struct (`mu` is the
embedded `sync.Mutex`, true when held) it carries the memory the hub points into:
`heap`, the allocated players, and `closedConns`, the connections on which `Close` was
called. -/
structure GameHub where
  heap : List Player
  activate : List Msg
  deactivate : List (List Nat)
  publish : List Msg
  mu : Bool
  Players : List Nat
  closedConns : List Nat

/-- The player an address points to. -/
def GameHub.deref (g : GameHub) (p : Nat) : Player :=
  g.heap.getD p Player.zero

/-- Overwrite the player at an address. -/
def GameHub.store (g : GameHub) (p : Nat) (v : Player) : GameHub :=
  { g with heap := g.heap.set p v }

/-- The run-time panics of the program. -/
inductive Fault where
  | typeAssertion
  | sendOnClosed
  | closeOfClosed
deriving DecidableEq

/-- What running a piece of the program gives: it completes, it panics in the given
state, or it waits for the mutex. -/
inductive Outcome (α : Type) where
  | ok (a : α)
  | panic (why : Fault) (g : GameHub)
  | blocked

/-- The function `initGameHub`. -/
def initGameHub : GameHub :=
  { heap := [], activate := [], deactivate := [], publish := [], mu := false,
    Players := [], closedConns := [] }

/-- Go `g.Lock()`. -/
def GameHub.Lock (g : GameHub) : Outcome GameHub :=
  if g.mu then .blocked else .ok { g with mu := true }

/-- Go `g.Unlock()`. -/
def GameHub.Unlock (g : GameHub) : GameHub :=
  { g with mu := false }

/-- Go `player.push <- m`. -/
def send (g : GameHub) (player : Nat) (m : Msg) : Outcome GameHub :=
  if (g.deref player).push.closed then .panic .sendOnClosed g
  else
    .ok (g.store player
      { g.deref player with
        push := { (g.deref player).push with sent := (g.deref player).push.sent ++ [m] } })

/-- A `for p := range ...` loop whose body can panic: the body runs for the keys in the
order of the visit, and a panic ends the loop. -/
def rangeLoop (body : Nat → GameHub → Outcome GameHub) : List Nat → GameHub → Outcome GameHub
  | [], g => .ok g
  | p :: rest, g =>
    match body p g with
    | .ok g1 => rangeLoop body rest g1
    | .panic w g1 => .panic w g1
    | .blocked => .blocked

/-! ## The conductor -/

/-- The body of the loop of `case message := <-g.publish`, for the key `player`. -/
def publishBody (message : Msg) (player : Nat) (g : GameHub) : Outcome GameHub :=
  if neq (g.deref player).uid (index message "id") then
    match assertString (index message "id") with
    | none => .panic .typeAssertion g
    | some _ => send g player message
  else .ok g

/-- The position-broadcast step: `case message := <-g.publish` of `conductor`, the
registry visited in the order `order`. -/
def publishCase (g : GameHub) (order : List Nat) (message : Msg) : Outcome GameHub :=
  rangeLoop (publishBody message) order g

/-- The map `existingPlayer` that the conductor builds for the player `k`. -/
def existingPlayer (k : Player) : Msg :=
  [("name", .str "new"), ("centerX", .float k.xPos), ("centerY", .float k.yPos),
   ("radius", .int k.radius), ("uid", .str k.uid)]

/-- The body of the inner loop `for k := range g.Players` of the join branch. -/
def bootstrapBody (player : Nat) (k : Nat) (g : GameHub) : Outcome GameHub :=
  if (g.deref player).uid != (g.deref k).uid then
    send g player (existingPlayer (g.deref k))
  else .ok g

/-- The body of the outer loop of `case message := <-g.activate`, for the key `player`;
`inner player` is the order in which the inner loop visits the registry. -/
def activateBody (message : Msg) (inner : Nat → List Nat) (player : Nat) (g : GameHub) :
    Outcome GameHub :=
  if neq (g.deref player).uid (index message "uid") then
    send g player message
  else
    rangeLoop (bootstrapBody player) (inner player) g

/-- The join step: `case message := <-g.activate` of `conductor`. -/
def activateCase (g : GameHub) (outer : List Nat) (inner : Nat → List Nat) (message : Msg) :
    Outcome GameHub :=
  rangeLoop (activateBody message inner) outer g

/-- The case a `select` of the conductor takes. -/
inductive Select where
  | publish
  | activate

/-- One iteration of the loop of `conductor`: receive from the channel of the chosen
case and run its body; with nothing to receive the conductor waits. -/
def conductor (g : GameHub) (c : Select) (outer : List Nat) (inner : Nat → List Nat) :
    Outcome GameHub :=
  match c with
  | .publish =>
    match g.publish with
    | [] => .blocked
    | message :: rest => publishCase { g with publish := rest } outer message
  | .activate =>
    match g.activate with
    | [] => .blocked
    | message :: rest => activateCase { g with activate := rest } outer inner message

/-! ## Creating and destroying players -/

/-- The function `createPlayer`; `uid` is the string of the identifier that
`uuid.NewV4()` returns. The result is the new state and the address of the player. -/
def createPlayer (g : GameHub) (conn : Nat) (uid : String) : Outcome (GameHub × Nat) :=
  let p := g.heap.length
  let g1 : GameHub :=
    { g with
      heap := g.heap ++
        [{ uid := uid, test := Chan.make, push := Chan.make, conn := conn, radius := 20,
           xPos := Float64.c512, yPos := Float64.c512 }] }
  match g1.Lock with
  | .ok g2 =>
    .ok (({ g2 with Players := if p ∈ g2.Players then g2.Players else g2.Players ++ [p] } :
      GameHub).Unlock, p)
  | .panic w g2 => .panic w g2
  | .blocked => .blocked

/-- Go `close(player.push)`. -/
def closePush (g : GameHub) (player : Nat) : Outcome GameHub :=
  if (g.deref player).push.closed then .panic .closeOfClosed g
  else
    .ok (g.store player
      { g.deref player with push := { (g.deref player).push with closed := true } })

/-- Go `close(player.test)`. -/
def closeTest (g : GameHub) (player : Nat) : Outcome GameHub :=
  if (g.deref player).test.closed then .panic .closeOfClosed g
  else
    .ok (g.store player
      { g.deref player with test := { (g.deref player).test with closed := true } })

/-- The function `destroyPlayer`. The deferred `Unlock` also runs when a `close` panics. -/
def destroyPlayer (g : GameHub) (player : Nat) : Outcome GameHub :=
  match g.Lock with
  | .ok g1 =>
    if player ∈ g1.Players then
      match closePush { g1 with Players := g1.Players.filter (fun q => q != player) } player with
      | .ok g2 =>
        match closeTest g2 player with
        | .ok g3 => .ok g3.Unlock
        | .panic w g3 => .panic w g3.Unlock
        | .blocked => .blocked
      | .panic w g2 => .panic w g2.Unlock
      | .blocked => .blocked
    else .ok g1.Unlock
  | .panic w g1 => .panic w g1
  | .blocked => .blocked

/-- The deferred function of `inStream` and of `outStream`:
`p.ghub.destroyPlayer(p); p.conn.Close()`. -/
def teardown (g : GameHub) (p : Nat) : Outcome GameHub :=
  match destroyPlayer g p with
  | .ok g1 => .ok { g1 with closedConns := g1.closedConns ++ [(g1.deref p).conn] }
  | .panic w g1 => .panic w g1
  | .blocked => .blocked

/-! ## The inbound loop -/

/-- What `p.conn.ReadJSON(&data)` gives: an error, or the decoded mapping. -/
inductive ReadJSON where
  | err
  | data (d : Msg)

/-- What one iteration of the loop of `inStream` leads to. -/
inductive Iter where
  | next (g : GameHub)
  | returned (g : GameHub)
  | panicked (why : Fault) (g : GameHub)
  | blocked

/-- A panic inside `inStream`: the deferred function runs, then the panic, which is not
recovered, ends the process. -/
def panicking (g : GameHub) (p : Nat) (why : Fault) : Iter :=
  match teardown g p with
  | .ok g1 => .panicked why g1
  | .panic w g1 => .panicked w g1
  | .blocked => .blocked

/-- One iteration of the loop of `inStream` for the player `p`, given what `ReadJSON`
returns. -/
def inStream (g : GameHub) (p : Nat) (r : ReadJSON) : Iter :=
  match r with
  | .err =>
    match teardown g p with
    | .ok g1 => .returned g1
    | .panic w g1 => .panicked w g1
    | .blocked => .blocked
  | .data data =>
    match assertFloat64 (index data "positionX") with
    | none => panicking g p .typeAssertion
    | some x =>
      let g1 := g.store p { g.deref p with xPos := x }
      match assertFloat64 (index data "positionY") with
      | none => panicking g1 p .typeAssertion
      | some y =>
        let g2 := g1.store p { g1.deref p with yPos := y }
        .next { g2 with publish := g2.publish ++ [data] }

/-! ## Accepting a connection -/

/-- The map `data` that `spinConnection` sends on `activate` for the player `uid`. -/
def joinData (uid : String) : Msg :=
  [("name", .str "new"), ("centerX", .str "512"), ("centerY", .str "512"),
   ("radius", .str "25"), ("uid", .str uid)]

/-- The function `spinConnection`; `upgrade` is what `upgrader.Upgrade` returns (`none`
for an error) and `uid` the identifier drawn for the player. The two goroutines it
starts are steps of their own. -/
def spinConnection (g : GameHub) (upgrade : Option Nat) (uid : String) : Outcome GameHub :=
  match upgrade with
  | none => .ok g
  | some conn =>
    match createPlayer g conn uid with
    | .ok (g1, player) =>
      let m : Msg := [("name", .str "getId"), ("uid", .str (g1.deref player).uid)]
      let data : Msg := joinData (g1.deref player).uid
      match send g1 player m with
      | .ok g2 => .ok { g2 with activate := g2.activate ++ [data] }
      | .panic w g2 => .panic w g2
      | .blocked => .blocked
    | .panic w g1 => .panic w g1
    | .blocked => .blocked

/-! ## Definitions used to state the properties -/

/-- The player after the events `ms` were sent on its `push` channel. -/
def Player.received (a : Player) (ms : List Msg) : Player :=
  { a with push := { a.push with sent := a.push.sent ++ ms } }

/-- The state `g2` is `g1` after the events `D q` were sent on the `push` channel of each
player `q`, and nothing else changed. -/
structure Delivered (g1 g2 : GameHub) (D : Nat → List Msg) : Prop where
  activate : g2.activate = g1.activate
  deactivate : g2.deactivate = g1.deactivate
  publish : g2.publish = g1.publish
  mu : g2.mu = g1.mu
  Players : g2.Players = g1.Players
  closedConns : g2.closedConns = g1.closedConns
  length : g2.heap.length = g1.heap.length
  deref : ∀ q, g2.deref q = (g1.deref q).received (D q)

/-- What holds of the hub between two operations: the mutex is free, and the registry
holds distinct addresses of allocated players whose two channels are open. -/
structure Inv (g : GameHub) : Prop where
  unlocked : g.mu = false
  nodup : g.Players.Nodup
  alloc : ∀ p ∈ g.Players, p < g.heap.length
  pushOpen : ∀ p ∈ g.Players, (g.deref p).push.closed = false
  testOpen : ∀ p ∈ g.Players, (g.deref p).test.closed = false

/-- The hub after one connection was accepted: the player `A` (address 0). -/
def hubA : GameHub :=
  { heap :=
      [{ uid := "A", test := Chan.make, push := Chan.make, conn := 7, radius := 20,
         xPos := Float64.c512, yPos := Float64.c512 }],
    activate := [], deactivate := [], publish := [], mu := false, Players := [0],
    closedConns := [] }

/-- The hub after two connections were accepted: the players `A` (address 0) and `B`
(address 1). -/
def hubAB : GameHub :=
  { heap :=
      [{ uid := "A", test := Chan.make, push := Chan.make, conn := 7, radius := 20,
         xPos := Float64.c512, yPos := Float64.c512 },
       { uid := "B", test := Chan.make, push := Chan.make, conn := 8, radius := 20,
         xPos := Float64.c512, yPos := Float64.c512 }],
    activate := [], deactivate := [], publish := [], mu := false, Players := [0, 1],
    closedConns := [] }

/-- A position event sent by the client of `A` that names `A` as its origin. -/
def eventOfA : Msg :=
  [("positionX", .float ⟨0x4024000000000000⟩), ("positionY", .float ⟨0x4034000000000000⟩),
   ("id", .str "A")]

/-- A position frame. -/
def frame1020 : Msg :=
  [("positionX", .float ⟨0x4024000000000000⟩), ("positionY", .float ⟨0x4034000000000000⟩)]

/-- A position frame sent by the client of `A` whose `id` names `B`. -/
def frameNamingB : Msg :=
  [("positionX", .float ⟨0x4024000000000000⟩), ("positionY", .float ⟨0x4034000000000000⟩),
   ("id", .str "B")]

/-- A frame that decodes as a mapping but whose `positionX` is a string. -/
def frameMalformed : Msg :=
  [("positionX", .str "10"), ("positionY", .float ⟨0x4034000000000000⟩)]

/-- The operations of the hub taken as steps: `createPlayer`, `destroyPlayer`, the
position-broadcast step and the join step of the conductor, the last two with the orders
of their visits of the registry. -/
inductive Op where
  | createPlayer (conn : Nat) (uid : String)
  | destroyPlayer (p : Nat)
  | publish (order : List Nat) (m : Msg)
  | activate (outer : List Nat) (inner : Nat → List Nat) (m : Msg)

/-- One step of the hub. -/
def step (g : GameHub) : Op → Outcome GameHub
  | .createPlayer conn uid =>
    match createPlayer g conn uid with
    | .ok (g1, _) => .ok g1
    | .panic w g1 => .panic w g1
    | .blocked => .blocked
  | .destroyPlayer p => destroyPlayer g p
  | .publish order m => publishCase g order m
  | .activate outer inner m => activateCase g outer inner m

/-- The orders a conductor step is given are visits of the registry of the state. -/
def Op.visits (g : GameHub) : Op → Prop
  | .publish order _ => order.Perm g.Players
  | .activate outer inner _ => outer.Perm g.Players ∧ ∀ p, (inner p).Perm g.Players
  | _ => True

/-- A run of the hub: the steps one after the other, up to the first that does not
complete. -/
def run : GameHub → List Op → Outcome GameHub
  | g, [] => .ok g
  | g, op :: ops =>
    match step g op with
    | .ok g1 => run g1 ops
    | .panic w g1 => .panic w g1
    | .blocked => .blocked

/-- Every conductor step of the run visits the registry of the state it is taken in. -/
def Visits : GameHub → List Op → Prop
  | _, [] => True
  | g, op :: ops =>
    op.visits g ∧
      match step g op with
      | .ok g1 => Visits g1 ops
      | _ => True

/-- The state in which a run ended, if it did not end waiting. -/
def Outcome.final : Outcome GameHub → Option GameHub
  | .ok g => some g
  | .panic _ g => some g
  | .blocked => none

/-- The panic a run ended with, if any. -/
def Outcome.fault : Outcome GameHub → Option Fault
  | .panic w _ => some w
  | _ => none

/-- A run of four steps after the destruction of `A`: a broadcast, a new player `C`, its
join step, and a broadcast of an event without `id`, at which the conductor panics. -/
def opsAfterA : List Op :=
  [.publish [1] eventOfA, .createPlayer 9 "C",
   .activate [1, 2] (fun _ => [2, 1]) (joinData "C"), .publish [2, 1] frame1020]

/-! ## Reading and writing players -/

theorem deref_store (g : GameHub) (p : Nat) (v : Player) (q : Nat) :
    (g.store p v).deref q = if q = p ∧ p < g.heap.length then v else g.deref q := by
  unfold GameHub.store GameHub.deref
  simp only [List.getD_eq_getElem?_getD, List.getElem?_set]
  by_cases h : p = q
  · subst h
    by_cases hl : p < g.heap.length
    · simp [hl]
    · have hn : g.heap[p]? = none := List.getElem?_eq_none (Nat.le_of_not_lt hl)
      simp [hl, hn]
  · have h2 : ¬ q = p := fun e => h e.symm
    simp [h, h2]

theorem deref_store_same (g : GameHub) (p : Nat) (v : Player) (hp : p < g.heap.length) :
    (g.store p v).deref p = v := by
  simp [deref_store, hp]

theorem deref_store_other (g : GameHub) (p : Nat) (v : Player) (q : Nat) (hq : q ≠ p) :
    (g.store p v).deref q = g.deref q := by
  simp [deref_store, hq]

theorem length_store (g : GameHub) (p : Nat) (v : Player) :
    (g.store p v).heap.length = g.heap.length := by
  simp [GameHub.store]

theorem received_nil (a : Player) : a.received [] = a := by
  simp [Player.received]

theorem received_received (a : Player) (xs ys : List Msg) :
    (a.received xs).received ys = a.received (xs ++ ys) := by
  simp [Player.received]

theorem Delivered.refl (g : GameHub) : Delivered g g (fun _ => []) :=
  ⟨rfl, rfl, rfl, rfl, rfl, rfl, rfl, fun _ => (received_nil _).symm⟩

theorem Delivered.trans {g1 g2 g3 : GameHub} {D E : Nat → List Msg}
    (h1 : Delivered g1 g2 D) (h2 : Delivered g2 g3 E) :
    Delivered g1 g3 (fun q => D q ++ E q) :=
  ⟨h2.activate.trans h1.activate, h2.deactivate.trans h1.deactivate,
   h2.publish.trans h1.publish, h2.mu.trans h1.mu, h2.Players.trans h1.Players,
   h2.closedConns.trans h1.closedConns, h2.length.trans h1.length,
   fun q => by rw [h2.deref, h1.deref, received_received]⟩

theorem Delivered.congr {g1 g2 : GameHub} {D E : Nat → List Msg}
    (h : Delivered g1 g2 D) (he : ∀ q, D q = E q) : Delivered g1 g2 E := by
  have : D = E := funext he
  rw [← this]; exact h

theorem Delivered.uid {g1 g2 : GameHub} {D : Nat → List Msg} (h : Delivered g1 g2 D)
    (q : Nat) : (g2.deref q).uid = (g1.deref q).uid := by
  rw [h.deref]; rfl

theorem Delivered.pushClosed {g1 g2 : GameHub} {D : Nat → List Msg} (h : Delivered g1 g2 D)
    (q : Nat) : (g2.deref q).push.closed = (g1.deref q).push.closed := by
  rw [h.deref]; rfl

theorem Delivered.existingPlayer {g1 g2 : GameHub} {D : Nat → List Msg}
    (h : Delivered g1 g2 D) (q : Nat) :
    existingPlayer (g2.deref q) = existingPlayer (g1.deref q) := by
  rw [h.deref]; rfl

/-- A send on the open `push` channel of an allocated player completes and delivers the
event to that player only. -/
theorem send_delivered (g : GameHub) (p : Nat) (m : Msg) (hp : p < g.heap.length)
    (ho : (g.deref p).push.closed = false) :
    ∃ g2, send g p m = .ok g2 ∧ Delivered g g2 (fun q => if q = p then [m] else []) := by
  refine ⟨g.store p { g.deref p with
      push := { (g.deref p).push with sent := (g.deref p).push.sent ++ [m] } },
    by simp [send, ho], ⟨rfl, rfl, rfl, rfl, rfl, rfl, length_store _ _ _, ?_⟩⟩
  intro q
  by_cases hq : q = p
  · subst hq
    simp [deref_store, hp, Player.received]
  · simp [deref_store, hq, received_nil]

/-- A loop over the registry whose body, at the key `p`, completes and delivers the events
`F p q` to each player `q`, completes and delivers to `q` the events of all the keys
visited, in the order of the visit. The body is only required to behave so in states
that differ from the state `g0` by deliveries. -/
theorem rangeLoop_delivered (body : Nat → GameHub → Outcome GameHub)
    (F : Nat → Nat → List Msg) (g0 : GameHub) (l : List Nat)
    (hbody : ∀ p ∈ l, ∀ g1 D1, Delivered g0 g1 D1 →
      ∃ g2, body p g1 = .ok g2 ∧ Delivered g1 g2 (F p)) :
    ∀ g1 D1, Delivered g0 g1 D1 →
      ∃ g2, rangeLoop body l g1 = .ok g2 ∧
        Delivered g1 g2 (fun q => l.flatMap (fun p => F p q)) := by
  induction l with
  | nil =>
    intro g1 D1 _
    exact ⟨g1, rfl, Delivered.refl g1⟩
  | cons p rest ih =>
    intro g1 D1 h1
    obtain ⟨g2, hb, hd⟩ := hbody p (List.mem_cons_self _ _) g1 D1 h1
    obtain ⟨g3, hr, hd3⟩ :=
      ih (fun k hk => hbody k (List.mem_cons_of_mem _ hk)) g2 _ (h1.trans hd)
    refine ⟨g3, ?_, (hd.trans hd3).congr (fun q => by simp [List.flatMap_cons])⟩
    simp [rangeLoop, hb, hr]

theorem flatMap_self (l : List Nat) (hl : l.Nodup) (E : Nat → List Msg) (q : Nat) :
    l.flatMap (fun p => if q = p then E p else []) = if q ∈ l then E q else [] := by
  induction l with
  | nil => simp
  | cons p rest ih =>
    rw [List.nodup_cons] at hl
    rw [List.flatMap_cons, ih hl.2]
    by_cases h : q = p
    · subst h
      simp [hl.1]
    · simp [h]

theorem flatMap_filter_map (l : List Nat) (c : Nat → Bool) (f : Nat → Msg) :
    l.flatMap (fun k => if c k then [f k] else []) = (l.filter c).map f := by
  induction l with
  | nil => simp
  | cons p rest ih =>
    rw [List.flatMap_cons, ih]
    by_cases h : c p <;> simp [List.filter_cons, h]

theorem flatMap_const_target (l : List Nat) (E : Nat → List Msg) (p q : Nat) :
    l.flatMap (fun k => if q = p then E k else []) = if q = p then l.flatMap E else [] := by
  by_cases h : q = p <;> simp [h]

/-! ## States of the hub -/

theorem neq_str (a s : String) : neq a (.str s) = (a != s) := rfl

theorem index_existingPlayer_uid (k : Player) : index (existingPlayer k) "uid" = .str k.uid := by
  rfl

/-- The events the position-broadcast step delivers to the player `q`. -/
theorem publishCase_delivered (g : GameHub) (order : List Nat) (m : Msg) (s : String)
    (hn : order.Nodup) (ha : ∀ p ∈ order, p < g.heap.length)
    (ho : ∀ p ∈ order, (g.deref p).push.closed = false) (hid : index m "id" = .str s) :
    ∃ g2, publishCase g order m = .ok g2 ∧
      Delivered g g2 (fun q => if q ∈ order ∧ (g.deref q).uid ≠ s then [m] else []) := by
  obtain ⟨g2, h, hd⟩ := rangeLoop_delivered (publishBody m)
    (fun p q => if q = p then (if (g.deref p).uid != s then [m] else []) else []) g order
    (by
      intro p hp g1 D1 h1
      have hu : (g1.deref p).uid = (g.deref p).uid := h1.uid p
      unfold publishBody
      rw [hid, neq_str, hu]
      by_cases hc : ((g.deref p).uid != s) = true
      · obtain ⟨g2, hs, hd⟩ := send_delivered g1 p m (by rw [h1.length]; exact ha p hp)
          (by rw [h1.pushClosed]; exact ho p hp)
        exact ⟨g2, by simp [hc, assertString, hs], hd.congr (fun q => by simp [hc])⟩
      · exact ⟨g1, by simp [hc], (Delivered.refl g1).congr (fun q => by simp [hc])⟩)
    g _ (Delivered.refl g)
  refine ⟨g2, h, hd.congr (fun q => ?_)⟩
  rw [flatMap_self order hn]
  by_cases hq : q ∈ order <;> simp [hq]

/-- The events the join step delivers to the player `q`: the join event when the uid of
`q` differs from the `uid` of the event, and otherwise one `existingPlayer` map for each
key of the inner visit whose uid differs from the uid of `q`. -/
theorem activateCase_delivered (g : GameHub) (outer : List Nat) (inner : Nat → List Nat)
    (m : Msg) (hn : outer.Nodup) (ha : ∀ p ∈ outer, p < g.heap.length)
    (ho : ∀ p ∈ outer, (g.deref p).push.closed = false) :
    ∃ g2, activateCase g outer inner m = .ok g2 ∧
      Delivered g g2 (fun q =>
        if q ∈ outer then
          (if neq (g.deref q).uid (index m "uid") then [m]
           else ((inner q).filter (fun k => (g.deref q).uid != (g.deref k).uid)).map
             (fun k => existingPlayer (g.deref k)))
        else []) := by
  obtain ⟨g2, h, hd⟩ := rangeLoop_delivered (activateBody m inner)
    (fun p q => if q = p then
      (if neq (g.deref p).uid (index m "uid") then [m]
       else ((inner p).filter (fun k => (g.deref p).uid != (g.deref k).uid)).map
         (fun k => existingPlayer (g.deref k))) else []) g outer
    (by
      intro p hp g1 D1 h1
      have hu : (g1.deref p).uid = (g.deref p).uid := h1.uid p
      have hp1 : p < g1.heap.length := by rw [h1.length]; exact ha p hp
      unfold activateBody
      rw [hu]
      by_cases hc : neq (g.deref p).uid (index m "uid") = true
      · obtain ⟨g2, hs, hd⟩ := send_delivered g1 p m hp1 (by rw [h1.pushClosed]; exact ho p hp)
        exact ⟨g2, by simp [hc, hs], hd.congr (fun q => by simp [hc])⟩
      · obtain ⟨g2, hl, hd⟩ := rangeLoop_delivered (bootstrapBody p)
          (fun k q => if q = p then
            (if (g.deref p).uid != (g.deref k).uid then [existingPlayer (g.deref k)] else [])
            else []) g (inner p)
          (by
            intro k _ g3 D3 h3
            have hu3 : (g3.deref p).uid = (g.deref p).uid := h3.uid p
            unfold bootstrapBody
            rw [hu3, h3.uid k, h3.existingPlayer k]
            by_cases hk : ((g.deref p).uid != (g.deref k).uid) = true
            · obtain ⟨g4, hs, hd4⟩ := send_delivered g3 p (existingPlayer (g.deref k))
                (by rw [h3.length]; exact ha p hp) (by rw [h3.pushClosed]; exact ho p hp)
              exact ⟨g4, by simp [hk, hs], hd4.congr (fun q => by simp [hk])⟩
            · exact ⟨g3, by simp [hk], (Delivered.refl g3).congr (fun q => by simp [hk])⟩)
          g1 D1 h1
        refine ⟨g2, by simp [hc, hl], hd.congr (fun q => ?_)⟩
        rw [flatMap_const_target, flatMap_filter_map]
        simp [hc])
    g _ (Delivered.refl g)
  refine ⟨g2, h, hd.congr (fun q => ?_)⟩
  rw [flatMap_self outer hn]

theorem inv_hubAB : Inv hubAB :=
  ⟨rfl, by decide, by decide, by decide, by decide⟩

/-- The hub of `A` and `B` is reached from `initGameHub` by two `createPlayer` steps. -/
theorem hubAB_reached :
    run initGameHub [.createPlayer 7 "A", .createPlayer 8 "B"] = .ok hubAB ∧
      run initGameHub [.createPlayer 7 "A"] = .ok hubA :=
  ⟨rfl, rfl⟩

/-- C2. Position fan-out: in a state of the hub between two operations, for every order
in which the range visits the registry and every position event `m` whose `id` is the
string `s`, the position-broadcast step completes; it appends `m`, unchanged, exactly once
to the `push` queue of every registered player whose uid differs from `s`, appends
nothing to the `push` queue of any other player, sends nothing on a `test` queue, and
leaves the registry and the uid, position and radius of every player as they were.
(Distinct uids are not needed for this.) -/
theorem publish_fan_out (g : GameHub) (order : List Nat) (m : Msg) (s : String)
    (hg : Inv g) (hord : order.Perm g.Players) (hid : index m "id" = .str s) :
    ∃ g2, publishCase g order m = .ok g2 ∧ g2.Players = g.Players ∧
      ∀ q,
        (g2.deref q).push.sent =
          (g.deref q).push.sent ++
            (if q ∈ g.Players ∧ (g.deref q).uid ≠ s then [m] else []) ∧
        (g2.deref q).push.closed = (g.deref q).push.closed ∧
        (g2.deref q).test = (g.deref q).test ∧
        (g2.deref q).uid = (g.deref q).uid ∧
        (g2.deref q).xPos = (g.deref q).xPos ∧
        (g2.deref q).yPos = (g.deref q).yPos ∧
        (g2.deref q).radius = (g.deref q).radius := by
  obtain ⟨g2, h, hd⟩ := publishCase_delivered g order m s (hord.nodup_iff.mpr hg.nodup)
    (fun p hp => hg.alloc p (hord.mem_iff.mp hp))
    (fun p hp => hg.pushOpen p (hord.mem_iff.mp hp)) hid
  refine ⟨g2, h, hd.Players, fun q => ?_⟩
  rw [hd.deref q]
  simp [Player.received, hord.mem_iff]

/-- The theorem `publish_fan_out` at the hub of `A` and `B` and an event of `A`: `B`
receives the event once and `A` receives nothing. -/
theorem publish_fan_out_witness :
    Inv hubAB ∧ [1, 0].Perm hubAB.Players ∧ index eventOfA "id" = .str "A" ∧
      ∃ g2, publishCase hubAB [1, 0] eventOfA = .ok g2 ∧
        (g2.deref 1).push.sent = [eventOfA] ∧ (g2.deref 0).push.sent = [] := by
  refine ⟨inv_hubAB, by decide, rfl, ?_⟩
  obtain ⟨g2, h, _, hq⟩ := publish_fan_out hubAB [1, 0] eventOfA "A" inv_hubAB (by decide) rfl
  refine ⟨g2, h, ?_, ?_⟩
  · rw [(hq 1).1]; rfl
  · rw [(hq 0).1]; rfl

/-- C3. Bootstrap completeness: in a state of the hub between two operations whose
registered players have pairwise distinct uids, for a registered newcomer `N`, a join
event `m` whose `uid` is the uid of `N`, and any orders of the two visits of the registry,
the join step completes; it appends to the `push` queue of `N` a list `boots` that is,
up to its order, the list with one map for each registered player `k` other than `N`,
that map being `name: "new"`, `centerX: k.xPos`, `centerY: k.yPos`, `radius: k.radius`,
`uid: k.uid` with the values `k` has when the step starts (so as many events as there
are other players, none of them the join event); it appends the join event exactly once
to the `push` queue of every other registered player; it appends nothing to any other
queue; and when `N` is the only registered player nothing is delivered to anyone. -/
theorem join_bootstrap (g : GameHub) (outer : List Nat) (inner : Nat → List Nat) (m : Msg)
    (N : Nat) (hg : Inv g) (hout : outer.Perm g.Players) (hin : (inner N).Perm g.Players)
    (hN : N ∈ g.Players)
    (hdist : ∀ a ∈ g.Players, ∀ b ∈ g.Players, (g.deref a).uid = (g.deref b).uid → a = b)
    (hm : index m "uid" = .str (g.deref N).uid) :
    ∃ g2 boots, activateCase g outer inner m = .ok g2 ∧ g2.Players = g.Players ∧
      boots.Perm ((g.Players.filter (fun k => k != N)).map
        (fun k =>
          ([("name", Value.str "new"), ("centerX", Value.float (g.deref k).xPos),
            ("centerY", Value.float (g.deref k).yPos),
            ("radius", Value.int (g.deref k).radius),
            ("uid", Value.str (g.deref k).uid)] : Msg))) ∧
      boots.length = g.Players.length - 1 ∧
      m ∉ boots ∧
      (g2.deref N).push.sent = (g.deref N).push.sent ++ boots ∧
      (∀ k ∈ g.Players, k ≠ N → (g2.deref k).push.sent = (g.deref k).push.sent ++ [m]) ∧
      (∀ q, q ∉ g.Players → (g2.deref q).push.sent = (g.deref q).push.sent) ∧
      (∀ q, (g2.deref q).test = (g.deref q).test) ∧
      (g.Players = [N] → ∀ q, (g2.deref q).push.sent = (g.deref q).push.sent) := by
  obtain ⟨g2, h, hd⟩ := activateCase_delivered g outer inner m
    (hout.nodup_iff.mpr hg.nodup) (fun p hp => hg.alloc p (hout.mem_iff.mp hp))
    (fun p hp => hg.pushOpen p (hout.mem_iff.mp hp))
  rw [hm] at hd
  simp only [neq_str] at hd
  have hfilter : g.Players.filter (fun k => (g.deref N).uid != (g.deref k).uid) =
      g.Players.filter (fun k => k != N) := by
    apply List.filter_congr
    intro k hk
    by_cases hkN : k = N
    · subst hkN; simp
    · have : (g.deref N).uid ≠ (g.deref k).uid := fun e => hkN (hdist N hN k hk e).symm
      have e1 : ((g.deref N).uid != (g.deref k).uid) = true := bne_iff_ne.mpr this
      have e2 : (k != N) = true := bne_iff_ne.mpr hkN
      rw [e1, e2]
  have hperm : (((inner N).filter (fun k => (g.deref N).uid != (g.deref k).uid)).map
      (fun k => existingPlayer (g.deref k))).Perm
      ((g.Players.filter (fun k => k != N)).map (fun k => existingPlayer (g.deref k))) := by
    rw [← hfilter]
    exact (hin.filter _).map _
  have hsentN : (g2.deref N).push.sent = (g.deref N).push.sent ++
      ((inner N).filter (fun k => (g.deref N).uid != (g.deref k).uid)).map
        (fun k => existingPlayer (g.deref k)) := by
    rw [hd.deref N]
    simp [Player.received, hout.mem_iff, hN]
  have hlen : (g.Players.filter (fun k => k != N)).length = g.Players.length - 1 := by
    have h1 := List.Nodup.erase_eq_filter hg.nodup N
    rw [← h1, List.length_erase_of_mem hN]
  refine ⟨g2, _, h, hd.Players, hperm, ?_, ?_, hsentN, ?_, ?_, ?_, ?_⟩
  · rw [hperm.length_eq, List.length_map, hlen]
  · intro hmem
    obtain ⟨k, hk, hek⟩ := List.mem_map.mp hmem
    have hk2 := (List.mem_filter.mp hk).2
    have h1 : index m "uid" = .str (g.deref k).uid := by
      rw [← hek]; exact index_existingPlayer_uid _
    rw [hm] at h1
    injection h1 with h1
    simp [h1] at hk2
  · intro k hk hkN
    have : (g.deref k).uid ≠ (g.deref N).uid := fun e => hkN (hdist k hk N hN e)
    rw [hd.deref k]
    simp [Player.received, hout.mem_iff, hk, this]
  · intro q hq
    rw [hd.deref q]
    simp [Player.received, hout.mem_iff, hq]
  · intro q
    rw [hd.deref q]
    rfl
  · intro hone q
    rw [hd.deref q]
    by_cases hq : q = N
    · subst hq
      have hi1 : inner q = [q] := by
        have := hin
        rw [hone] at this
        exact List.perm_singleton.mp this
      simp [Player.received, hout.mem_iff, hN, hi1]
    · have : q ∉ g.Players := by rw [hone]; simpa using hq
      simp [Player.received, hout.mem_iff, this]

/-! ## Creating and destroying -/

theorem unlock_lock (g : GameHub) (h : g.mu = false) :
    ({ g with mu := true } : GameHub).Unlock = g := by
  cases g
  simp_all [GameHub.Unlock]

theorem lock_ok (g : GameHub) (h : g.mu = false) : g.Lock = .ok { g with mu := true } := by
  simp [GameHub.Lock, h]

theorem closePush_ok (g : GameHub) (p : Nat) (h : (g.deref p).push.closed = false) :
    closePush g p = .ok (g.store p
      { g.deref p with push := { (g.deref p).push with closed := true } }) := by
  simp [closePush, h]

theorem closeTest_ok (g : GameHub) (p : Nat) (h : (g.deref p).test.closed = false) :
    closeTest g p = .ok (g.store p
      { g.deref p with test := { (g.deref p).test with closed := true } }) := by
  simp [closeTest, h]

/-- What `destroyPlayer` does to a registered player. -/
theorem destroyPlayer_registered (g : GameHub) (p : Nat) (hg : Inv g) (hp : p ∈ g.Players) :
    destroyPlayer g p = .ok
      { g with
        heap := g.heap.set p
          { g.deref p with
            push := { (g.deref p).push with closed := true },
            test := { (g.deref p).test with closed := true } },
        Players := g.Players.filter (fun q => q != p) } := by
  have hl := hg.alloc p hp
  have hpo := hg.pushOpen p hp
  have hto := hg.testOpen p hp
  have hl1 : p < ({ g with mu := true, Players := g.Players.filter (fun q => q != p) } :
      GameHub).heap.length := hl
  have e1 := closePush_ok
    ({ g with mu := true, Players := g.Players.filter (fun q => q != p) } : GameHub) p hpo
  have e2 := closeTest_ok
    (({ g with mu := true, Players := g.Players.filter (fun q => q != p) } : GameHub).store p
      { g.deref p with push := { (g.deref p).push with closed := true } }) p
    (by rw [deref_store_same _ _ _ hl1]; exact hto)
  rw [deref_store_same _ _ _ hl1] at e2
  simp only [destroyPlayer, lock_ok g hg.unlocked]
  rw [if_pos hp]
  erw [e1]
  simp only []
  erw [e2]
  simp [GameHub.Unlock, GameHub.store, hg.unlocked]

/-- What `destroyPlayer` does in a state of the hub between two operations. -/
theorem destroyPlayer_spec (g : GameHub) (p : Nat) (hg : Inv g) :
    ∃ g1, destroyPlayer g p = .ok g1 ∧ Inv g1 ∧
      g1.heap.length = g.heap.length ∧
      g1.Players = g.Players.filter (fun q => q != p) ∧
      (∀ q, q ≠ p → g1.deref q = g.deref q) ∧
      (p ∈ g.Players → g1.deref p =
        { g.deref p with
          push := { (g.deref p).push with closed := true },
          test := { (g.deref p).test with closed := true } }) ∧
      (p ∉ g.Players → g1 = g) := by
  by_cases hp : p ∈ g.Players
  · have hl := hg.alloc p hp
    have hd : ∀ q, q ≠ p → GameHub.deref
        { g with
          heap := g.heap.set p
            { g.deref p with
              push := { (g.deref p).push with closed := true },
              test := { (g.deref p).test with closed := true } },
          Players := g.Players.filter (fun q => q != p) } q = g.deref q := by
      intro q hq
      exact deref_store_other g p _ q hq
    refine ⟨_, destroyPlayer_registered g p hg hp, ?_, ?_, rfl, hd, ?_, ?_⟩
    · refine ⟨hg.unlocked, hg.nodup.filter _, ?_, ?_, ?_⟩
      · intro q hq
        have := hg.alloc q (List.mem_filter.mp hq).1
        simpa using this
      · intro q hq
        have hq1 := List.mem_filter.mp hq
        have hne : q ≠ p := by simpa using hq1.2
        rw [hd q hne]
        exact hg.pushOpen q hq1.1
      · intro q hq
        have hq1 := List.mem_filter.mp hq
        have hne : q ≠ p := by simpa using hq1.2
        rw [hd q hne]
        exact hg.testOpen q hq1.1
    · simp
    · intro _
      exact deref_store_same g p _ hl
    · intro h; exact absurd hp h
  · refine ⟨g, ?_, hg, rfl, ?_, fun _ _ => rfl, fun h => absurd h hp, fun _ => rfl⟩
    · simp only [destroyPlayer, lock_ok g hg.unlocked]
      simp [hp, unlock_lock g hg.unlocked]
    · symm
      rw [List.filter_eq_self]
      intro q hq
      have : q ≠ p := fun e => hp (e ▸ hq)
      simpa using this

/-- C4. At-most-once teardown: in a state of the hub between two operations, calling
`destroyPlayer(p)` twice in a row never panics; the first call on a registered `p`
removes it from the registry, closes its `push` and its `test` queue and touches no
other player; the second call, like any call on a player that is not registered, returns
the state it was given, so it removes nothing and closes nothing. -/
theorem destroyPlayer_at_most_once (g : GameHub) (p : Nat) (hg : Inv g) :
    ∃ g1, destroyPlayer g p = .ok g1 ∧ destroyPlayer g1 p = .ok g1 ∧
      p ∉ g1.Players ∧
      (∀ q, q ≠ p → (q ∈ g1.Players ↔ q ∈ g.Players) ∧ g1.deref q = g.deref q) ∧
      (p ∈ g.Players →
        (g.deref p).push.closed = false ∧ (g.deref p).test.closed = false ∧
        (g1.deref p).push.closed = true ∧ (g1.deref p).test.closed = true) ∧
      (p ∉ g.Players → g1 = g) := by
  obtain ⟨g1, h1, hi1, _, hP, hother, hsame, hno⟩ := destroyPlayer_spec g p hg
  have hp1 : p ∉ g1.Players := by
    rw [hP]; simp [List.mem_filter]
  obtain ⟨g2, h2, _, _, _, _, _, hno2⟩ := destroyPlayer_spec g1 p hi1
  refine ⟨g1, h1, ?_, hp1, ?_, ?_, hno⟩
  · rw [h2, hno2 hp1]
  · intro q hq
    refine ⟨?_, hother q hq⟩
    rw [hP]; simp [List.mem_filter, hq]
  · intro hp
    refine ⟨hg.pushOpen p hp, hg.testOpen p hp, ?_, ?_⟩ <;> rw [hsame hp]

/-- The theorem `destroyPlayer_at_most_once` at the hub of `A` and `B`, for `A`. -/
theorem destroyPlayer_at_most_once_witness :
    Inv hubAB ∧
      ∃ g1, destroyPlayer hubAB 0 = .ok g1 ∧ destroyPlayer g1 0 = .ok g1 ∧
        g1.Players = [1] ∧ (g1.deref 0).push.closed = true ∧
        (g1.deref 0).test.closed = true := by
  refine ⟨inv_hubAB, ?_⟩
  obtain ⟨g1, h1, h2, _, _, _, _⟩ := destroyPlayer_at_most_once hubAB 0 inv_hubAB
  have e : destroyPlayer hubAB 0 = .ok
      { hubAB with
        heap :=
          [{ uid := "A", test := ⟨[], true⟩, push := ⟨[], true⟩, conn := 7, radius := 20,
             xPos := Float64.c512, yPos := Float64.c512 },
           { uid := "B", test := Chan.make, push := Chan.make, conn := 8, radius := 20,
             xPos := Float64.c512, yPos := Float64.c512 }],
        Players := [1] } := rfl
  rw [e] at h1
  injection h1 with h1
  subst h1
  exact ⟨_, e, h2, rfl, rfl, rfl⟩

/-! ## The inbound loop -/

/-- What one iteration of `inStream` does with a position-shaped mapping. -/
theorem inStream_data (g : GameHub) (p : Nat) (d : Msg) (x y : Float64)
    (hp : p < g.heap.length) (hx : index d "positionX" = .float x)
    (hy : index d "positionY" = .float y) :
    ∃ g2, inStream g p (.data d) = .next g2 ∧
      g2.publish = g.publish ++ [d] ∧
      g2.deref p = { g.deref p with xPos := x, yPos := y } ∧
      (∀ q, q ≠ p → g2.deref q = g.deref q) ∧
      g2.Players = g.Players ∧ g2.heap.length = g.heap.length ∧
      g2.activate = g.activate ∧ g2.deactivate = g.deactivate ∧ g2.mu = g.mu ∧
      g2.closedConns = g.closedConns := by
  refine ⟨{ (g.store p { g.deref p with xPos := x }).store p
      { (g.store p { g.deref p with xPos := x }).deref p with yPos := y } with
      publish := g.publish ++ [d] }, ?_, rfl, ?_, ?_, rfl, ?_, rfl, rfl, rfl, rfl⟩
  · simp [inStream, hx, hy, assertFloat64]
    rfl
  · show ((g.store p { g.deref p with xPos := x }).store p _).deref p = _
    rw [deref_store_same _ _ _ (by rw [length_store]; exact hp), deref_store_same _ _ _ hp]
  · intro q hq
    show ((g.store p { g.deref p with xPos := x }).store p _).deref q = _
    rw [deref_store_other _ _ _ _ hq, deref_store_other _ _ _ _ hq]
  · show ((g.store p { g.deref p with xPos := x }).store p _).heap.length = _
    rw [length_store, length_store]

/-- C8. Inbound step: for an allocated player `p` and a decoded mapping `d` whose
`positionX` and `positionY` are the floats `x` and `y`, one iteration of `inStream`
continues the loop; it sets `p.xPos` to `x` and `p.yPos` to `y`, appends exactly `d` to
the events sent on `publish`, and changes nothing else: the other fields of `p`, every
other player, the registry and the other fields of the hub stay as they were. -/
theorem inStream_position (g : GameHub) (p : Nat) (d : Msg) (x y : Float64)
    (hp : p < g.heap.length) (hx : index d "positionX" = .float x)
    (hy : index d "positionY" = .float y) :
    ∃ g2, inStream g p (.data d) = .next g2 ∧
      g2.publish = g.publish ++ [d] ∧
      g2.deref p = { g.deref p with xPos := x, yPos := y } ∧
      (∀ q, q ≠ p → g2.deref q = g.deref q) ∧
      g2.Players = g.Players ∧ g2.heap.length = g.heap.length ∧
      g2.activate = g.activate ∧ g2.deactivate = g.deactivate ∧ g2.mu = g.mu ∧
      g2.closedConns = g.closedConns :=
  inStream_data g p d x y hp hx hy

/-- The theorem `inStream_position` for the player `A` and a frame with one more field. -/
theorem inStream_position_witness :
    0 < hubAB.heap.length ∧ index eventOfA "positionX" = .float ⟨0x4024000000000000⟩ ∧
      index eventOfA "positionY" = .float ⟨0x4034000000000000⟩ ∧
      ∃ g2, inStream hubAB 0 (.data eventOfA) = .next g2 ∧ g2.publish = [eventOfA] ∧
        (g2.deref 0).xPos = ⟨0x4024000000000000⟩ ∧ (g2.deref 0).yPos = ⟨0x4034000000000000⟩ ∧
        g2.deref 1 = hubAB.deref 1 := by
  refine ⟨by decide, rfl, rfl, ?_⟩
  obtain ⟨g2, h, hpub, hd, ho, _⟩ :=
    inStream_position hubAB 0 eventOfA ⟨0x4024000000000000⟩ ⟨0x4034000000000000⟩
      (by decide) rfl rfl
  exact ⟨g2, h, hpub, by rw [hd], by rw [hd], ho 1 (by decide)⟩

/-- C1, as stated, fails: the inbound loop of `A` receives a position frame whose `id` is
not the uid of `A` and forwards it as it is; the position-broadcast step on that event
then delivers it to the `push` queue of `A` itself (and not to `B`). -/
theorem exclusion_counterexample :
    Inv hubAB ∧ 0 ∈ hubAB.Players ∧
      index frameNamingB "positionX" = .float ⟨0x4024000000000000⟩ ∧
      index frameNamingB "positionY" = .float ⟨0x4034000000000000⟩ ∧
      ∃ g1 g2, inStream hubAB 0 (.data frameNamingB) = .next g1 ∧
        g1.publish = [frameNamingB] ∧
        publishCase g1 [0, 1] frameNamingB = .ok g2 ∧
        (g2.deref 0).push.sent = [frameNamingB] ∧
        (g2.deref 1).push.sent = [] ∧
        index frameNamingB "id" ≠ .str (hubAB.deref 0).uid :=
  ⟨inv_hubAB, by decide, rfl, rfl, _, _, rfl, rfl, rfl, rfl, rfl, by
    intro h
    have h2 : assertString (index frameNamingB "id") = assertString (.str (hubAB.deref 0).uid) :=
      congrArg assertString h
    revert h2
    decide⟩

/-- C1, amended. In a state of the hub between two operations, when the inbound loop of a
registered player `p` receives a position frame `d` whose `id` is the uid of `p`, it
forwards `d` as it is, and the position-broadcast step on `d` completes and leaves the
`push` queue of `p` as it was, while every registered player with another uid receives
`d`. -/
theorem exclusion_when_id_is_own (g : GameHub) (p : Nat) (d : Msg) (x y : Float64)
    (order : List Nat) (hg : Inv g) (hp : p ∈ g.Players) (hord : order.Perm g.Players)
    (hx : index d "positionX" = .float x) (hy : index d "positionY" = .float y)
    (hid : index d "id" = .str (g.deref p).uid) :
    ∃ g1 g2, inStream g p (.data d) = .next g1 ∧ g1.publish = g.publish ++ [d] ∧
      publishCase g1 order d = .ok g2 ∧
      (g2.deref p).push = (g.deref p).push ∧
      (∀ q ∈ g.Players, (g.deref q).uid ≠ (g.deref p).uid →
        (g2.deref q).push.sent = (g.deref q).push.sent ++ [d]) := by
  obtain ⟨g1, h1, hpub, hdp, hdo, hP, hlen, _, _, hmu, _⟩ :=
    inStream_data g p d x y (hg.alloc p hp) hx hy
  have hpush : ∀ q, (g1.deref q).push = (g.deref q).push := by
    intro q
    by_cases hq : q = p
    · subst hq; rw [hdp]
    · rw [hdo q hq]
  have huid : ∀ q, (g1.deref q).uid = (g.deref q).uid := by
    intro q
    by_cases hq : q = p
    · subst hq; rw [hdp]
    · rw [hdo q hq]
  obtain ⟨g2, h2, hd⟩ := publishCase_delivered g1 order d (g.deref p).uid
    (hord.nodup_iff.mpr hg.nodup)
    (fun q hq => by rw [hlen]; exact hg.alloc q (hord.mem_iff.mp hq))
    (fun q hq => by rw [hpush]; exact hg.pushOpen q (hord.mem_iff.mp hq)) hid
  refine ⟨g1, g2, h1, hpub, h2, ?_, ?_⟩
  · rw [hd.deref p, ← hpush p]
    simp [Player.received, huid]
  · intro q hq hne
    rw [hd.deref q, ← hpush q]
    simp [Player.received, huid, hord.mem_iff, hq, hne]

/-- The theorem `exclusion_when_id_is_own` for the player `A` and an event naming `A`. -/
theorem exclusion_when_id_is_own_witness :
    Inv hubAB ∧ 0 ∈ hubAB.Players ∧ [1, 0].Perm hubAB.Players ∧
      index eventOfA "positionX" = .float ⟨0x4024000000000000⟩ ∧
      index eventOfA "positionY" = .float ⟨0x4034000000000000⟩ ∧
      index eventOfA "id" = .str (hubAB.deref 0).uid ∧
      ∃ g1 g2, inStream hubAB 0 (.data eventOfA) = .next g1 ∧
        publishCase g1 [1, 0] eventOfA = .ok g2 ∧
        (g2.deref 0).push.sent = [] ∧ (g2.deref 1).push.sent = [eventOfA] := by
  refine ⟨inv_hubAB, by decide, by decide, rfl, rfl, rfl, ?_⟩
  obtain ⟨g1, g2, h1, _, h2, hown, hothers⟩ :=
    exclusion_when_id_is_own hubAB 0 eventOfA ⟨0x4024000000000000⟩ ⟨0x4034000000000000⟩
      [1, 0] inv_hubAB (by decide) (by decide) rfl rfl rfl
  refine ⟨g1, g2, h1, h2, by rw [hown]; rfl, ?_⟩
  rw [hothers 1 (by decide) (by decide)]
  rfl

/-- The theorem `join_bootstrap` at the hub of `A` and `B` for the newcomer `B`: `B`
receives the one map describing `A` (position `512`, `512` as floats, radius `20` as an
integer, uid `"A"`), and `A` receives the join event. -/
theorem join_bootstrap_witness :
    Inv hubAB ∧ [0, 1].Perm hubAB.Players ∧ [1, 0].Perm hubAB.Players ∧ 1 ∈ hubAB.Players ∧
      (∀ a ∈ hubAB.Players, ∀ b ∈ hubAB.Players,
        (hubAB.deref a).uid = (hubAB.deref b).uid → a = b) ∧
      index (joinData "B") "uid" = .str (hubAB.deref 1).uid ∧
      ∃ g2, activateCase hubAB [0, 1] (fun _ => [1, 0]) (joinData "B") = .ok g2 ∧
        (g2.deref 1).push.sent =
          [[("name", Value.str "new"), ("centerX", Value.float ⟨0x4080000000000000⟩),
            ("centerY", Value.float ⟨0x4080000000000000⟩), ("radius", Value.int 20),
            ("uid", Value.str "A")]] ∧
        (g2.deref 0).push.sent =
          [[("name", Value.str "new"), ("centerX", Value.str "512"),
            ("centerY", Value.str "512"), ("radius", Value.str "25"),
            ("uid", Value.str "B")]] := by
  refine ⟨inv_hubAB, by decide, by decide, by decide, by decide, rfl, ?_⟩
  obtain ⟨g2, boots, h, _, hperm, _, _, hN, hE, _⟩ :=
    join_bootstrap hubAB [0, 1] (fun _ => [1, 0]) (joinData "B") 1 inv_hubAB
      (by decide) (by decide) (by decide) (by decide) rfl
  have hb : boots = [existingPlayer (hubAB.deref 0)] := List.perm_singleton.mp hperm
  refine ⟨g2, h, ?_, ?_⟩
  · rw [hN, hb]; rfl
  · rw [hE 0 (by decide) (by decide)]; rfl

/-! ## Where the program panics and what `spinConnection` sends -/

/-- C7 fails on the code. The hub holds `A` and `B`; the position event has float
`positionX` and `positionY` and no `id`, as the inbound schema allows. The comparison
`player.uid != message["id"]` holds for the first player visited, and the assertion
`message["id"].(string)` in the argument of `fmt.Printf` panics: the step does not
complete and delivers the event to no one. -/
theorem publish_without_id_panics :
    Inv hubAB ∧
      index frame1020 "positionX" = .float ⟨0x4024000000000000⟩ ∧
      index frame1020 "positionY" = .float ⟨0x4034000000000000⟩ ∧
      index frame1020 "id" = .null ∧
      publishCase hubAB [0, 1] frame1020 = .panic .typeAssertion hubAB ∧
      publishCase hubAB [1, 0] frame1020 = .panic .typeAssertion hubAB :=
  ⟨inv_hubAB, rfl, rfl, rfl, rfl, rfl⟩

/-- C9 fails on the code. For a frame that decodes as a mapping but is not position-shaped
(`positionX` a string, or the fields missing), the assertion `data["positionX"].(float64)`
panics inside `inStream`: the deferred teardown of `A` runs (it leaves the registry and
its queues are closed), nothing is forwarded, and the panic, which nothing recovers,
ends the process and with it the hub and the player `B`. -/
theorem inStream_malformed_panics :
    (∃ g2, inStream hubAB 0 (.data frameMalformed) = .panicked .typeAssertion g2 ∧
      g2.Players = [1] ∧ (g2.deref 0).push.closed = true ∧
      (g2.deref 0).test.closed = true ∧ g2.publish = [] ∧ g2.closedConns = [7]) ∧
    (∃ g2, inStream hubAB 0 (.data []) = .panicked .typeAssertion g2 ∧
      g2.Players = [1] ∧ g2.publish = []) :=
  ⟨⟨_, rfl, rfl, rfl, rfl, rfl, rfl⟩, ⟨_, rfl, rfl, rfl⟩⟩

/-- C6 fails on the code. `spinConnection` creates the player with radius `20` (an
`int`) at the position `512`, `512` (floats), and sends on `activate` a join event
whose `centerX`, `centerY` and `radius` are the strings `"512"`, `"512"` and `"25"`;
the join step delivers that event to the existing player `A`. The map the conductor
builds for the same player carries the floats and the integer `20`. -/
theorem spinConnection_join_event :
    ∃ g2 g3, spinConnection hubA (some 8) "B" = .ok g2 ∧
      g2.activate = [joinData "B"] ∧ g2.Players = [0, 1] ∧
      index (joinData "B") "centerX" = .str "512" ∧
      index (joinData "B") "centerY" = .str "512" ∧
      index (joinData "B") "radius" = .str "25" ∧
      (g2.deref 1).xPos = Float64.c512 ∧ (g2.deref 1).yPos = Float64.c512 ∧
      (g2.deref 1).radius = 20 ∧
      index (existingPlayer (g2.deref 1)) "centerX" = .float Float64.c512 ∧
      index (existingPlayer (g2.deref 1)) "centerY" = .float Float64.c512 ∧
      index (existingPlayer (g2.deref 1)) "radius" = .int 20 ∧
      conductor g2 .activate [0, 1] (fun _ => [0, 1]) = .ok g3 ∧
      (g3.deref 0).push.sent = [joinData "B"] :=
  ⟨_, _, rfl, rfl, rfl, rfl, rfl, rfl, rfl, rfl, rfl, rfl, rfl, rfl, rfl, rfl⟩

/-- C10 fails on the code: the conductor never takes the mutex. While another goroutine
holds it, `createPlayer` and `destroyPlayer` wait, but both branches of the conductor
visit the registry and send. And with the mutex free, nothing keeps `destroyPlayer(B)`
out of an iteration of the publish loop: the iteration for `A` is over, the range has
produced `B` and the test `player.uid != message["id"]` has passed for it; then
`destroyPlayer(B)` runs to its end, and the send `player.push <- message` of that
iteration meets the closed `push` queue of `B` and panics. -/
theorem conductor_takes_no_lock :
    createPlayer { hubAB with mu := true } 9 "C" = .blocked ∧
    destroyPlayer { hubAB with mu := true } 1 = .blocked ∧
    (∃ g2, publishCase { hubAB with mu := true } [0, 1] eventOfA = .ok g2 ∧
      g2.mu = true ∧ (g2.deref 1).push.sent = [eventOfA]) ∧
    (∃ g2, activateCase { hubAB with mu := true } [0, 1] (fun _ => [0, 1]) (joinData "B") =
        .ok g2 ∧ g2.mu = true ∧ (g2.deref 0).push.sent = [joinData "B"]) ∧
    (∃ g1 g2, publishBody eventOfA 0 hubAB = .ok g1 ∧
      neq (g1.deref 1).uid (index eventOfA "id") = true ∧
      assertString (index eventOfA "id") = some "A" ∧
      destroyPlayer g1 1 = .ok g2 ∧
      send g2 1 eventOfA = .panic .sendOnClosed g2) :=
  ⟨rfl, rfl, ⟨_, rfl, rfl, rfl⟩, ⟨_, rfl, rfl, rfl⟩, ⟨_, _, rfl, rfl, rfl, rfl, rfl⟩⟩

/-! ## The hub as a state machine -/

theorem Delivered.inv {g1 g2 : GameHub} {D : Nat → List Msg} (h : Delivered g1 g2 D)
    (hg : Inv g1) : Inv g2 := by
  refine ⟨h.mu.trans hg.unlocked, h.Players ▸ hg.nodup, ?_, ?_, ?_⟩
  · intro p hp
    rw [h.length]; exact hg.alloc p (h.Players ▸ hp)
  · intro p hp
    rw [h.pushClosed]; exact hg.pushOpen p (h.Players ▸ hp)
  · intro p hp
    rw [h.deref]; exact hg.testOpen p (h.Players ▸ hp)

theorem neq_of_not_string (u : String) (v : Value) (h : assertString v = none) :
    neq u v = true := by
  cases v <;> simp_all [assertString, neq]

/-- With an `id` that is not a string, the position-broadcast step panics at the first
key it visits, before any send. -/
theorem publishCase_not_string (g : GameHub) (order : List Nat) (m : Msg)
    (h : assertString (index m "id") = none) :
    publishCase g order m = if order = [] then .ok g else .panic .typeAssertion g := by
  cases order with
  | nil => rfl
  | cons p rest =>
    simp [publishCase, rangeLoop, publishBody, neq_of_not_string _ _ h, h]

theorem inv_initGameHub : Inv initGameHub :=
  ⟨rfl, List.nodup_nil, by simp [initGameHub], by simp [initGameHub], by simp [initGameHub]⟩

theorem deref_append_lt (g1 g : GameHub) (v : Player) (h : g1.heap = g.heap ++ [v]) (q : Nat)
    (hq : q < g.heap.length) : g1.deref q = g.deref q := by
  simp [GameHub.deref, h, List.getD_eq_getElem?_getD, List.getElem?_append_left hq]

theorem deref_append_new (g1 g : GameHub) (v : Player) (h : g1.heap = g.heap ++ [v]) :
    g1.deref g.heap.length = v := by
  simp [GameHub.deref, h, List.getD_eq_getElem?_getD]

/-- What `createPlayer` does in a state of the hub between two operations: the new player
gets a fresh address, is registered, and no other player is touched. -/
theorem createPlayer_spec (g : GameHub) (conn : Nat) (uid : String) (hg : Inv g) :
    ∃ g1, createPlayer g conn uid = .ok (g1, g.heap.length) ∧ Inv g1 ∧
      g1.heap.length = g.heap.length + 1 ∧
      g1.Players = g.Players ++ [g.heap.length] ∧
      (∀ q, q < g.heap.length → g1.deref q = g.deref q) ∧
      g1.deref g.heap.length =
        { uid := uid, test := Chan.make, push := Chan.make, conn := conn, radius := 20,
          xPos := Float64.c512, yPos := Float64.c512 } := by
  have hfresh : g.heap.length ∉ g.Players := fun h => Nat.lt_irrefl _ (hg.alloc _ h)
  refine ⟨{ g with
      heap := g.heap ++
        [{ uid := uid, test := Chan.make, push := Chan.make, conn := conn, radius := 20,
           xPos := Float64.c512, yPos := Float64.c512 }],
      Players := g.Players ++ [g.heap.length] }, ?_, ?_, ?_, rfl, ?_, ?_⟩
  · simp [createPlayer, GameHub.Lock, GameHub.Unlock, hg.unlocked, hfresh]
  · refine ⟨hg.unlocked, ?_, ?_, ?_, ?_⟩
    · exact List.Nodup.append hg.nodup (List.nodup_singleton _)
        (by intro a ha hb; simp at hb; subst hb; exact hfresh ha)
    · intro p hp
      rcases List.mem_append.mp hp with h | h
      · have := hg.alloc p h
        simp; omega
      · simp at h; simp [h]
    · intro p hp
      rcases List.mem_append.mp hp with h | h
      · rw [deref_append_lt _ g _ rfl p (hg.alloc p h)]
        exact hg.pushOpen p h
      · simp at h; subst h
        rw [deref_append_new _ g _ rfl]
        rfl
    · intro p hp
      rcases List.mem_append.mp hp with h | h
      · rw [deref_append_lt _ g _ rfl p (hg.alloc p h)]
        exact hg.testOpen p h
      · simp at h; subst h
        rw [deref_append_new _ g _ rfl]
        rfl
  · simp
  · intro q hq
    exact deref_append_lt _ g _ rfl q hq
  · exact deref_append_new _ g _ rfl

/-- One step of the hub, from a state between two operations: it does not wait; if it
completes, the new state is again such a state, and a player that is allocated and not
registered stays so, its two channels untouched; if it panics, it is the type assertion
of the publish branch, in the state the step started from. -/
theorem step_spec (g : GameHub) (op : Op) (hg : Inv g) (hv : op.visits g) :
    (∃ g2, step g op = .ok g2 ∧ Inv g2 ∧ g.heap.length ≤ g2.heap.length ∧
      ∀ p, p < g.heap.length → p ∉ g.Players →
        p ∉ g2.Players ∧ (g2.deref p).push = (g.deref p).push ∧
        (g2.deref p).test = (g.deref p).test) ∨
    step g op = .panic .typeAssertion g := by
  cases op with
  | createPlayer conn uid =>
    obtain ⟨g1, h, hi, hlen, hP, hd, _⟩ := createPlayer_spec g conn uid hg
    refine Or.inl ⟨g1, by simp [step, h], hi, by omega, ?_⟩
    intro p hp hnp
    refine ⟨?_, by rw [hd p hp], by rw [hd p hp]⟩
    rw [hP]
    simp only [List.mem_append, List.mem_singleton, not_or]
    exact ⟨hnp, by omega⟩
  | destroyPlayer q =>
    obtain ⟨g1, h, hi, hlen, hP, hother, _, hno⟩ := destroyPlayer_spec g q hg
    refine Or.inl ⟨g1, h, hi, by omega, ?_⟩
    intro p _ hnp
    have hnp1 : p ∉ g1.Players := by
      rw [hP]; intro hm; exact hnp (List.mem_filter.mp hm).1
    by_cases hq : p = q
    · subst hq
      rw [hno hnp] at hnp1 ⊢
      exact ⟨hnp1, rfl, rfl⟩
    · exact ⟨hnp1, by rw [hother p hq], by rw [hother p hq]⟩
  | publish order m =>
    have hord : order.Perm g.Players := hv
    cases hid : index m "id" with
    | str s =>
      obtain ⟨g2, h, hd⟩ := publishCase_delivered g order m s (hord.nodup_iff.mpr hg.nodup)
        (fun p hp => hg.alloc p (hord.mem_iff.mp hp))
        (fun p hp => hg.pushOpen p (hord.mem_iff.mp hp)) hid
      refine Or.inl ⟨g2, h, hd.inv hg, by rw [hd.length], ?_⟩
      intro p _ hnp
      have hnot : p ∉ order := fun hm => hnp (hord.mem_iff.mp hm)
      rw [hd.deref p, hd.Players]
      simp [hnot, received_nil, hnp]
    | null | bool _ | float _ | int _ | arr _ | obj _ =>
      have hns : assertString (index m "id") = none := by rw [hid]; rfl
      have h := publishCase_not_string g order m hns
      by_cases ho : order = []
      · refine Or.inl ⟨g, by show publishCase g order m = _; rw [h, if_pos ho], hg,
          Nat.le_refl _, ?_⟩
        intro p _ hnp
        exact ⟨hnp, rfl, rfl⟩
      · exact Or.inr (by show publishCase g order m = _; rw [h, if_neg ho])
  | activate outer inner m =>
    have hord : outer.Perm g.Players := hv.1
    obtain ⟨g2, h, hd⟩ := activateCase_delivered g outer inner m (hord.nodup_iff.mpr hg.nodup)
      (fun p hp => hg.alloc p (hord.mem_iff.mp hp))
      (fun p hp => hg.pushOpen p (hord.mem_iff.mp hp))
    refine Or.inl ⟨g2, h, hd.inv hg, by rw [hd.length], ?_⟩
    intro p _ hnp
    have hnot : p ∉ outer := fun hm => hnp (hord.mem_iff.mp hm)
    rw [hd.deref p, hd.Players]
    simp [hnot, received_nil, hnp]

/-- A run of the hub from a state between two operations, for a player that is allocated
and not registered. -/
theorem run_silent (ops : List Op) : ∀ (g : GameHub) (p : Nat), Inv g →
    p < g.heap.length → p ∉ g.Players → Visits g ops →
    ∃ g2, (run g ops).final = some g2 ∧ p ∉ g2.Players ∧
      (g2.deref p).push = (g.deref p).push ∧ (g2.deref p).test = (g.deref p).test ∧
      ((run g ops).fault = none ∨ (run g ops).fault = some .typeAssertion) := by
  induction ops with
  | nil =>
    intro g p _ _ hnp _
    exact ⟨g, rfl, hnp, rfl, rfl, Or.inl rfl⟩
  | cons op ops ih =>
    intro g p hg hp hnp hv
    rcases step_spec g op hg hv.1 with ⟨g1, h1, hi1, hlen, hsil⟩ | hpanic
    · obtain ⟨hnp1, hpush, htest⟩ := hsil p hp hnp
      have hv1 : Visits g1 ops := by
        have := hv.2
        rw [h1] at this
        exact this
      obtain ⟨g2, hf, hnp2, hpush2, htest2, hfault⟩ :=
        ih g1 p hi1 (by omega) hnp1 hv1
      refine ⟨g2, ?_, hnp2, hpush2.trans hpush, htest2.trans htest, ?_⟩
      · simp only [run, h1]; exact hf
      · simp only [run, h1]; exact hfault
    · refine ⟨g, ?_, hnp, rfl, rfl, Or.inr ?_⟩
      · simp only [run, hpanic]; rfl
      · simp only [run, hpanic]; rfl

/-- A run that starts in a state between two operations, such as `initGameHub`, and
completes ends in such a state. -/
theorem inv_run (ops : List Op) : ∀ (g g2 : GameHub), Inv g → Visits g ops →
    run g ops = .ok g2 → Inv g2 := by
  induction ops with
  | nil =>
    intro g g2 hg _ h
    injection h with h
    subst h
    exact hg
  | cons op ops ih =>
    intro g g2 hg hv h
    rcases step_spec g op hg hv.1 with ⟨g1, h1, hi1, _, _⟩ | hpanic
    · have hv1 : Visits g1 ops := by
        have := hv.2
        rw [h1] at this
        exact this
      simp only [run, h1] at h
      exact ih g1 g2 hi1 hv1 h
    · simp [run, hpanic] at h

/-- C5. Post-destruction silence: take `createPlayer`, `destroyPlayer`, the
position-broadcast step and the join step as the steps of a state machine, each conductor
step visiting the registry of its state in any order and for any event. From a state of
the hub between two operations, in every run that starts with `destroyPlayer(p)` for a
registered `p`, the run does not wait, and in the state it ends in (after its last step
or at a panic) `p` is not registered, its two queues are closed, and the events sent on
its `push` and on its `test` queue are those sent before it was destroyed. No step sends
on a closed queue or closes one twice: the only panic a run can end with is the type
assertion of the publish branch. -/
theorem silence_after_destroy (g : GameHub) (p : Nat) (ops : List Op) (hg : Inv g)
    (hp : p ∈ g.Players) (hv : Visits g (.destroyPlayer p :: ops)) :
    ∃ g2, (run g (.destroyPlayer p :: ops)).final = some g2 ∧ p ∉ g2.Players ∧
      (g2.deref p).push.sent = (g.deref p).push.sent ∧
      (g2.deref p).test.sent = (g.deref p).test.sent ∧
      (g2.deref p).push.closed = true ∧ (g2.deref p).test.closed = true ∧
      (run g (.destroyPlayer p :: ops)).fault ≠ some .sendOnClosed ∧
      (run g (.destroyPlayer p :: ops)).fault ≠ some .closeOfClosed := by
  obtain ⟨g1, h1, hi1, hlen, hP, _, hsame, _⟩ := destroyPlayer_spec g p hg
  have hs1 : step g (.destroyPlayer p) = .ok g1 := h1
  have hnp1 : p ∉ g1.Players := by
    rw [hP]; simp [List.mem_filter]
  have hv1 : Visits g1 ops := by
    have := hv.2
    rw [hs1] at this
    exact this
  obtain ⟨g2, hf, hnp2, hpush, htest, hfault⟩ :=
    run_silent ops g1 p hi1 (by rw [hlen]; exact hg.alloc p hp) hnp1 hv1
  have hrun : run g (.destroyPlayer p :: ops) = run g1 ops := by
    simp only [run, hs1]
  rw [hrun]
  refine ⟨g2, hf, hnp2, ?_, ?_, ?_, ?_, ?_, ?_⟩
  · rw [hpush, hsame hp]
  · rw [htest, hsame hp]
  · rw [hpush, hsame hp]
  · rw [htest, hsame hp]
  · rcases hfault with h | h <;> rw [h] <;> simp
  · rcases hfault with h | h <;> rw [h] <;> simp

/-- The theorem `silence_after_destroy` at the hub of `A` and `B`, for `A`. -/
theorem silence_after_destroy_witness :
    Inv hubAB ∧ 0 ∈ hubAB.Players ∧ Visits hubAB (.destroyPlayer 0 :: opsAfterA) ∧
      ∃ g2, (run hubAB (.destroyPlayer 0 :: opsAfterA)).final = some g2 ∧
        0 ∉ g2.Players ∧ (g2.deref 0).push.sent = [] ∧ (g2.deref 0).test.sent = [] ∧
        (run hubAB (.destroyPlayer 0 :: opsAfterA)).fault = some .typeAssertion := by
  have hv : Visits hubAB (.destroyPlayer 0 :: opsAfterA) :=
    ⟨trivial, List.Perm.refl _, trivial, ⟨List.Perm.refl _, fun _ => List.Perm.swap 1 2 []⟩,
      List.Perm.swap 1 2 [], trivial⟩
  refine ⟨inv_hubAB, by decide, hv, ?_⟩
  obtain ⟨g2, hf, hnp, hpush, htest, _⟩ :=
    silence_after_destroy hubAB 0 opsAfterA inv_hubAB (by decide) hv
  exact ⟨g2, hf, hnp, hpush, htest, rfl⟩

end Station
